import Mathlib

/-!
Shallow embedding of the MCP client/server repository (client.py, server.py).

The client's query-processing turn (`MCPClient.process_query`) is modelled as a
pure step function.  Everything external to the modelled code — the tool
invocation over the MCP session, the LLM completion — is passed in as data:
the LLM reply text is an input string, and the outcome of
`session.call_tool` is supplied by a `callTool` function argument producing a
`CallOutcome` (success content, or a raised exception's message).  The
function returns the new pending-call state, the list of tool invocations
performed during the turn (empty or a singleton), and the string returned to
the chat loop.

Python string operations used by the source (`str.lower`, `in` substring
test, `str.split(",")`, `str.strip`, `str.endswith`) are modelled by
executable character-list functions below.
-/

set_option autoImplicit false

namespace MCPSpec

/-! ### Python string primitives -/

/-- Model of Python `str.lower` on one character (ASCII case fold,
which is all the repository's tool and parameter names use). -/
def lowerChar (c : Char) : Char :=
  if 'A' ≤ c && c ≤ 'Z' then Char.ofNat (c.toNat + 32) else c

/-- Whitespace stripped by Python `str.strip` (ASCII cases). -/
def isSpaceChar (c : Char) : Bool :=
  c == ' ' || c == '\t' || c == '\n' || c == '\r'

/-- Model of Python `str.strip`. -/
def trimList (l : List Char) : List Char :=
  ((l.dropWhile isSpaceChar).reverse.dropWhile isSpaceChar).reverse

/-- Model of Python `str.split(",")`: split on every comma, keeping empty
segments; the split of the empty string is `[""]`. -/
def splitComma : List Char → List (List Char)
  | [] => [[]]
  | c :: cs =>
    match splitComma cs with
    | [] => [[]]
    | g :: gs => if c == ',' then [] :: g :: gs else (c :: g) :: gs

/-- `isPrefixList a b` holds when `a` is a leading segment of `b`. -/
def isPrefixList : List Char → List Char → Bool
  | [], _ => true
  | _ :: _, [] => false
  | a :: as, b :: bs => a == b && isPrefixList as bs

/-- `isInfixList needle hay` models Python `needle in hay` (contiguous
substring containment). -/
def isInfixList (needle : List Char) : List Char → Bool
  | [] => needle.isEmpty
  | b :: bs => isPrefixList needle (b :: bs) || isInfixList needle bs

/-- Model of Python `needle.lower() in hay.lower()`: case-insensitive
substring containment. -/
def containsCI (hay needle : String) : Bool :=
  isInfixList (needle.data.map lowerChar) (hay.data.map lowerChar)

/-- Model of Python `s.endswith(suf)`. -/
def strEndsWith (s suf : String) : Bool :=
  isPrefixList suf.data.reverse s.data.reverse

/-- Model of Python `", ".join(xs)`. -/
def joinComma : List String → String
  | [] => ""
  | [x] => x
  | x :: y :: rest => x ++ ", " ++ joinComma (y :: rest)

/-- Split the user's reply on commas and strip each segment:
`[val.strip() for val in query.split(",")]` in `process_query`. -/
def userInputsOf (query : String) : List String :=
  (splitComma query.data).map (fun seg => String.mk (trimList seg))

/-! ### Python dict as an association list (insertion order preserved) -/

/-- `d[k] = v` on a Python dict: update the value in place if the key is
present, otherwise append the new binding at the end. -/
def dictInsert (d : List (String × String)) (k v : String) : List (String × String) :=
  match d with
  | [] => [(k, v)]
  | (k0, v0) :: rest => if k0 = k then (k0, v) :: rest else (k0, v0) :: dictInsert rest k v

/-- `d.get(k)` / `k in d` on a Python dict. -/
def dictLookup (d : List (String × String)) (k : String) : Option String :=
  match d with
  | [] => none
  | (k0, v0) :: rest => if k0 = k then some v0 else dictLookup rest k

/-- Sequential dict update: `for key, val in pairs: d[key] = val`. -/
def mergeParams (d : List (String × String)) (pairs : List (String × String)) :
    List (String × String) :=
  pairs.foldl (fun acc kv => dictInsert acc kv.1 kv.2) d

/-! ### Client data model -/

/-- A tool as the client sees it after `list_tools`: name, description and
the ordered key list of `input_schema['properties']` (the source reads only
the property keys, via `list(tool['input_schema']['properties'].keys())`). -/
structure ToolDescriptor where
  name : String
  description : String
  properties : List String
deriving DecidableEq

/-- The client's `self.pending_tool_call` triple
`(tool_name, collected_params, missing_params)`. -/
structure PendingCall where
  toolName : String
  collectedParams : List (String × String)
  missingParams : List String
deriving DecidableEq

/-- Outcome of one `session.call_tool` invocation: the text content of the
result, or the message of the exception it raised. -/
inductive CallOutcome where
  | success (content : String)
  | failure (errMsg : String)

/-- What one `process_query` turn did: the pending-call slot after the turn,
the tool invocations performed (with their argument dicts), and the string
returned to the chat loop. -/
structure StepResult where
  pending : Option PendingCall
  calls : List (String × List (String × String))
  output : String
deriving DecidableEq

/-! ### process_query, CASE 2: normal dispatch -/

/-- Parameter inference for a non-`query_tool` tool: for each schema
property, if the property name occurs case-insensitively in the raw query,
bind the entire raw query to it (`provided_params[param] = query`). -/
def inferParams (properties : List String) (query : String) : List (String × String) :=
  properties.foldl
    (fun acc param => if containsCI query param then dictInsert acc param query else acc) []

/-- `[p for p in required_props if p not in provided_params]`. -/
def missingOf (properties : List String) (query : String) : List String :=
  properties.filter (fun p => !(dictLookup (inferParams properties query) p).isSome)

/-- The body of the dispatch loop for the tool whose name matched the LLM
reply (client.py lines 111-136). -/
def dispatchTool (callTool : String → List (String × String) → CallOutcome)
    (tool : ToolDescriptor) (query : String) : StepResult :=
  if tool.name = "query_tool" then
    let provided : List (String × String) := [("query", query)]
    match callTool tool.name provided with
    | .success c =>
      ⟨none, [(tool.name, provided)], "✅ Used tool " ++ tool.name ++ ":\n" ++ c⟩
    | .failure e =>
      ⟨none, [(tool.name, provided)], "Error processing query: " ++ e⟩
  else
    let provided := inferParams tool.properties query
    let missing := missingOf tool.properties query
    if missing.isEmpty then
      match callTool tool.name provided with
      | .success c =>
        ⟨none, [(tool.name, provided)], "✅ Used tool " ++ tool.name ++ ":\n" ++ c⟩
      | .failure e =>
        ⟨none, [(tool.name, provided)], "Error processing query: " ++ e⟩
    else
      ⟨some ⟨tool.name, provided, missing⟩, [],
        "To use " ++ tool.name ++
          ", please provide information in this specific format: " ++ joinComma missing⟩

/-- The dispatch loop `for tool in available_tools:` — the first tool whose
name occurs case-insensitively in the LLM reply is dispatched; if none
matches, the LLM reply is returned verbatim. -/
def matchTools (callTool : String → List (String × String) → CallOutcome)
    (tools : List ToolDescriptor) (replyText query : String) : StepResult :=
  match tools with
  | [] => ⟨none, [], replyText⟩
  | t :: rest =>
    if containsCI replyText t.name then dispatchTool callTool t query
    else matchTools callTool rest replyText query

/-! ### process_query, one full turn -/

/-- One `process_query` turn.  CASE 1 (a pending tool call is stored):
split the user input on commas, compare the count with the missing
parameters, and either report the expected count (keeping the pending call)
or merge and invoke the tool (clearing it whether the call succeeds or
raises).  CASE 2 (no pending call): dispatch on the LLM reply `replyText`
over the listed `tools`. -/
def process_query (callTool : String → List (String × String) → CallOutcome)
    (pending : Option PendingCall) (tools : List ToolDescriptor)
    (replyText query : String) : StepResult :=
  match pending with
  | some pc =>
    let userInputs := userInputsOf query
    if userInputs.length ≠ pc.missingParams.length then
      ⟨some pc, [],
        "Expected " ++ toString pc.missingParams.length ++ " values: " ++
          joinComma pc.missingParams⟩
    else
      let merged := mergeParams pc.collectedParams (pc.missingParams.zip userInputs)
      match callTool pc.toolName merged with
      | .success c =>
        ⟨none, [(pc.toolName, merged)], "✅ Used tool " ++ pc.toolName ++ ":\n" ++ c⟩
      | .failure e =>
        ⟨none, [(pc.toolName, merged)], "❌ Error calling tool " ++ pc.toolName ++ ": " ++ e⟩
  | none => matchTools callTool tools replyText query

/-! ### connect_to_server -/

/-- Result of `MCPClient.connect_to_server`: either the stdio server process
is launched with the given command, or a ValueError is raised first. -/
inductive ConnectResult where
  | launch (command : String)
  | valueError (msg : String)
deriving DecidableEq

/-- `MCPClient.connect_to_server` up to the process launch decision
(client.py lines 32-43). -/
def connect_to_server (serverScriptPath : String) : ConnectResult :=
  let is_python := strEndsWith serverScriptPath ".py"
  let is_js := strEndsWith serverScriptPath ".js"
  if !(is_python || is_js) then
    .valueError "Server script must be a .py or .js file"
  else
    .launch (if is_python then "python" else "node")

/-! ### Server: login_tool -/

/-- The structured dict `login_tool` returns when arguments are missing. -/
structure ErrorResponse where
  error : String
  message : String
deriving DecidableEq

/-- Result of `login_tool` up to the backend HTTP boundary: either the
structured missing-arguments response, or a POST of the payload to the login
API (whose response is external). -/
inductive LoginResult where
  | errorResponse (r : ErrorResponse)
  | apiCall (name : String) (age : Int)
deriving DecidableEq

/-- `login_tool(name, age)` from server.py: validate presence of both
parameters; on absence return the structured response, otherwise forward the
payload to the login API. -/
def login_tool (name : Option String) (age : Option Int) : LoginResult :=
  if name.isNone || age.isNone then
    let missing :=
      (if name.isNone then ["name"] else []) ++ (if age.isNone then ["age"] else [])
    .errorResponse
      ⟨"missing_arguments",
        "To help you with the login process, please provide your " ++
          joinComma missing ++ "."⟩
  else
    .apiCall (name.getD "") (age.getD 0)

/-! ### Concrete fixtures (the repository's two tools, and a stub session) -/

/-- A session stub whose tool invocations always succeed. -/
def stubCall : String → List (String × String) → CallOutcome :=
  fun _ _ => .success "ok"

/-- The server's knowledge-base query tool as the client lists it. -/
def queryToolDesc : ToolDescriptor :=
  ⟨"query_tool", "RAG knowledge-base query tool", ["query", "top_k", "min_score"]⟩

/-- The server's login tool as the client lists it. -/
def loginToolDesc : ToolDescriptor :=
  ⟨"login_tool", "login tool", ["name", "age"]⟩

/-- A pending login call with both parameters still missing. -/
def pcNameAge : PendingCall :=
  ⟨"login_tool", [], ["name", "age"]⟩

/-! ### Dictionary lemmas -/

theorem dictLookup_dictInsert_self (d : List (String × String)) (k v : String) :
    dictLookup (dictInsert d k v) k = some v := by
  induction d with
  | nil => simp [dictInsert, dictLookup]
  | cons kv rest ih =>
    obtain ⟨k0, v0⟩ := kv
    by_cases h : k0 = k
    · simp [dictInsert, dictLookup, h]
    · simp [dictInsert, dictLookup, h, ih]

theorem dictLookup_dictInsert_ne (d : List (String × String)) {k k1 : String} (v : String)
    (h : k1 ≠ k) : dictLookup (dictInsert d k v) k1 = dictLookup d k1 := by
  induction d with
  | nil => simp [dictInsert, dictLookup, Ne.symm h]
  | cons kv rest ih =>
    obtain ⟨k0, v0⟩ := kv
    by_cases h0 : k0 = k
    · simp [dictInsert, dictLookup, h0, Ne.symm h]
    · simp only [dictInsert, if_neg h0]
      by_cases h1 : k0 = k1
      · simp [dictLookup, h1]
      · simp [dictLookup, h1, ih]

theorem dictInsert_eq_append {d : List (String × String)} {k : String} (v : String)
    (h : dictLookup d k = none) : dictInsert d k v = d ++ [(k, v)] := by
  induction d with
  | nil => rfl
  | cons kv rest ih =>
    obtain ⟨k0, v0⟩ := kv
    by_cases h0 : k0 = k
    · simp [dictLookup, h0] at h
    · simp [dictLookup, h0] at h
      simp [dictInsert, h0, ih h]

theorem dictLookup_map_const (l : List String) (v k : String) :
    dictLookup (l.map (fun p => (p, v))) k = if k ∈ l then some v else none := by
  induction l with
  | nil => rfl
  | cons p rest ih =>
    by_cases h : p = k
    · simp [dictLookup, h, List.mem_cons]
    · simp [dictLookup, h, ih, List.mem_cons, Ne.symm h]

theorem mergeParams_nil (d : List (String × String)) : mergeParams d [] = d := rfl

theorem mergeParams_cons (d : List (String × String)) (k v : String)
    (rest : List (String × String)) :
    mergeParams d ((k, v) :: rest) = mergeParams (dictInsert d k v) rest := rfl

theorem dictLookup_mergeParams_of_not_mem (pairs : List (String × String)) :
    ∀ (d : List (String × String)) (k : String), k ∉ pairs.map Prod.fst →
      dictLookup (mergeParams d pairs) k = dictLookup d k := by
  induction pairs with
  | nil => intro d k _; rfl
  | cons kv rest ih =>
    intro d k hk
    obtain ⟨k0, v0⟩ := kv
    rw [List.map_cons] at hk
    have hk1 : k ≠ k0 := by rintro rfl; exact hk (List.mem_cons_self _ _)
    have hk2 : k ∉ rest.map Prod.fst := fun hm => hk (List.mem_cons_of_mem _ hm)
    rw [mergeParams_cons, ih _ _ hk2]
    exact dictLookup_dictInsert_ne _ _ hk1

theorem dictLookup_mergeParams_of_mem (pairs : List (String × String)) :
    ∀ (d : List (String × String)) (k v : String), (pairs.map Prod.fst).Nodup →
      (k, v) ∈ pairs → dictLookup (mergeParams d pairs) k = some v := by
  induction pairs with
  | nil => intro d k v _ hmem; simp at hmem
  | cons kv rest ih =>
    intro d k v hnd hmem
    obtain ⟨k0, v0⟩ := kv
    rw [List.map_cons, List.nodup_cons] at hnd
    rcases List.mem_cons.mp hmem with heq | hmem2
    · have hk : k = k0 := congrArg Prod.fst heq
      have hv : v = v0 := congrArg Prod.snd heq
      subst hk
      subst hv
      rw [mergeParams_cons, dictLookup_mergeParams_of_not_mem rest _ _ hnd.1]
      exact dictLookup_dictInsert_self d k v
    · exact ih _ _ _ hnd.2 hmem2

/-! ### Characterization of parameter inference -/

theorem inferParams_go (query : String) : ∀ (props : List String) (acc : List (String × String)),
    props.Nodup → (∀ p ∈ props, dictLookup acc p = none) →
    props.foldl
        (fun acc2 param => if containsCI query param then dictInsert acc2 param query else acc2)
        acc
      = acc ++ (props.filter (fun p => containsCI query p)).map (fun p => (p, query)) := by
  intro props
  induction props with
  | nil => intro acc _ _; simp
  | cons p rest ih =>
    intro acc hnd hacc
    rw [List.nodup_cons] at hnd
    by_cases hc : containsCI query p = true
    · rw [List.foldl_cons, if_pos hc]
      have hnone : ∀ q ∈ rest, dictLookup (dictInsert acc p query) q = none := by
        intro q hq
        have hqp : q ≠ p := fun hqq => hnd.1 (hqq ▸ hq)
        rw [dictLookup_dictInsert_ne _ _ hqp]
        exact hacc q (List.mem_cons_of_mem _ hq)
      rw [ih (dictInsert acc p query) hnd.2 hnone]
      rw [dictInsert_eq_append query (hacc p (List.mem_cons_self p rest))]
      simp [List.filter_cons, hc]
    · have hc2 : containsCI query p = false := Bool.eq_false_iff.mpr hc
      rw [List.foldl_cons, if_neg (by simp [hc2])]
      rw [ih acc hnd.2 (fun q hq => hacc q (List.mem_cons_of_mem _ hq))]
      simp [List.filter_cons, hc2]

theorem inferParams_eq (props : List String) (query : String) (hnd : props.Nodup) :
    inferParams props query
      = (props.filter (fun p => containsCI query p)).map (fun p => (p, query)) := by
  have h := inferParams_go query props [] hnd (fun p _ => rfl)
  simpa [inferParams] using h

theorem missingOf_eq (props : List String) (query : String) (hnd : props.Nodup) :
    missingOf props query = props.filter (fun p => !(containsCI query p)) := by
  unfold missingOf
  apply List.filter_congr
  intro p hp
  rw [inferParams_eq props query hnd, dictLookup_map_const]
  by_cases hc : containsCI query p = true
  · have hmem : p ∈ props.filter (fun q => containsCI query q) :=
      List.mem_filter.mpr ⟨hp, hc⟩
    simp [hmem, hc]
  · have hmem : p ∉ props.filter (fun q => containsCI query q) :=
      fun hm => hc (List.mem_filter.mp hm).2
    simp [hmem, Bool.eq_false_iff.mpr hc]

/-! ### The dispatch loop is a first-match search -/

theorem matchTools_eq_find (f : String → List (String × String) → CallOutcome)
    (tools : List ToolDescriptor) (replyText query : String) :
    matchTools f tools replyText query
      = match tools.find? (fun t => containsCI replyText t.name) with
        | some t => dispatchTool f t query
        | none => ⟨none, [], replyText⟩ := by
  induction tools with
  | nil => rfl
  | cons t rest ih =>
    by_cases h : containsCI replyText t.name = true
    · simp [matchTools, List.find?, h]
    · simp [matchTools, List.find?, h, ih]

/-! ### The two script-suffix tests are mutually exclusive -/

theorem isPrefixList_cons_head {a : Char} {as r : List Char}
    (h : isPrefixList (a :: as) r = true) : ∃ rest, r = a :: rest := by
  cases r with
  | nil => simp [isPrefixList] at h
  | cons b bs =>
    refine ⟨bs, ?_⟩
    simp [isPrefixList] at h
    rw [h.1]

theorem not_ends_py_and_js (s : String) :
    ¬ (strEndsWith s ".py" = true ∧ strEndsWith s ".js" = true) := by
  rintro ⟨h1, h2⟩
  have e1 : (".py" : String).data.reverse = ['y', 'p', '.'] := rfl
  have e2 : (".js" : String).data.reverse = ['s', 'j', '.'] := rfl
  rw [strEndsWith, e1] at h1
  rw [strEndsWith, e2] at h2
  obtain ⟨r1, hr1⟩ := isPrefixList_cons_head h1
  obtain ⟨r2, hr2⟩ := isPrefixList_cons_head h2
  rw [hr1] at hr2
  injection hr2 with hc _
  exact absurd hc (by decide)

/-! ### Claims -/

/-- Claim C1: for every list of tool descriptors and every LLM reply text,
dispatch (a turn with no pending call) selects the first descriptor in listing
order whose name appears case-insensitively as a substring of the reply; if no
descriptor's name appears in the reply, it returns the LLM reply text verbatim
and invokes no tool. -/
theorem claim_C1_first_match_dispatch (f : String → List (String × String) → CallOutcome)
    (tools : List ToolDescriptor) (replyText query : String) :
    process_query f none tools replyText query
      = match tools.find? (fun t => containsCI replyText t.name) with
        | some t => dispatchTool f t query
        | none => ⟨none, [], replyText⟩ :=
  matchTools_eq_find f tools replyText query

/-- Claim C2: for a matched tool other than the knowledge-base query tool,
dispatch binds the entire raw user query to exactly each schema property whose
name appears case-insensitively as a substring of the raw query, and the
properties not bound this way become the missing parameters, in
schema-declaration order. -/
theorem claim_C2_param_inference (f : String → List (String × String) → CallOutcome)
    (t : ToolDescriptor) (query : String)
    (hname : t.name ≠ "query_tool") (hnd : t.properties.Nodup) :
    dispatchTool f t query
      = (let provided := (t.properties.filter (fun p => containsCI query p)).map
            (fun p => (p, query))
         let missing := t.properties.filter (fun p => !(containsCI query p))
         if missing.isEmpty then
           match f t.name provided with
           | .success c =>
             ⟨none, [(t.name, provided)], "✅ Used tool " ++ t.name ++ ":\n" ++ c⟩
           | .failure e =>
             ⟨none, [(t.name, provided)], "Error processing query: " ++ e⟩
         else
           ⟨some ⟨t.name, provided, missing⟩, [],
             "To use " ++ t.name
               ++ ", please provide information in this specific format: "
               ++ joinComma missing⟩) := by
  unfold dispatchTool
  rw [if_neg hname, inferParams_eq t.properties query hnd, missingOf_eq t.properties query hnd]

/-- Witness for Claim C2: the login tool against the query "my name is Alice"
binds the whole query to "name" and leaves "age" missing. -/
theorem claim_C2_witness :
    dispatchTool stubCall loginToolDesc "my name is Alice"
      = ⟨some ⟨"login_tool", [("name", "my name is Alice")], ["age"]⟩, [],
          "To use login_tool, please provide information in this specific format: age"⟩ :=
  (claim_C2_param_inference stubCall loginToolDesc "my name is Alice"
    (by decide) (by decide)).trans (by decide)

/-- Claim C3: with a stored pending call, a user input whose comma-split,
trimmed segment count differs from the number of missing parameters yields the
message naming the expected count, invokes no tool, and leaves the pending call
stored unchanged; in every other resumption path the pending call is cleared. -/
theorem claim_C3_count_mismatch_keeps_pending
    (f : String → List (String × String) → CallOutcome) (pc : PendingCall)
    (tools : List ToolDescriptor) (replyText query : String) :
    ((userInputsOf query).length ≠ pc.missingParams.length →
      process_query f (some pc) tools replyText query
        = ⟨some pc, [],
            "Expected " ++ toString pc.missingParams.length ++ " values: "
              ++ joinComma pc.missingParams⟩)
    ∧ ((userInputsOf query).length = pc.missingParams.length →
      (process_query f (some pc) tools replyText query).pending = none) := by
  constructor
  · intro h
    simp [process_query, h]
  · intro h
    cases hc : f pc.toolName
        (mergeParams pc.collectedParams (pc.missingParams.zip (userInputsOf query))) with
    | success c => simp [process_query, h, hc]
    | failure e => simp [process_query, h, hc]

/-- Witness for Claim C3: resuming a pending login call expecting two values
with "Alice" reports the expected count and keeps the pending call, while
"Alice, 30" clears it. -/
theorem claim_C3_witness :
    process_query stubCall (some pcNameAge) [] "" "Alice"
        = ⟨some pcNameAge, [], "Expected 2 values: name, age"⟩
    ∧ (process_query stubCall (some pcNameAge) [] "" "Alice, 30").pending = none :=
  ⟨((claim_C3_count_mismatch_keeps_pending stubCall pcNameAge [] "" "Alice").1
      (by decide)).trans (by decide),
   (claim_C3_count_mismatch_keeps_pending stubCall pcNameAge [] "" "Alice, 30").2 (by decide)⟩

/-- Counterexample to Claim C4 as stated: a turn that begins with a pending
call stored and receives the wrong number of comma-separated values ends with
the pending call still stored, so the pending call's lifetime is not always
one round-trip. -/
theorem claim_C4_counterexample :
    (process_query stubCall (some pcNameAge) [] "" "Alice").pending ≠ none := by decide

/-- Claim C4 (amended): a turn that begins with a pending call stored ends
with no pending call stored whenever the comma-split segment count equals the
number of missing parameters (whether the invocation succeeds or fails); on a
count mismatch the pending call remains stored unchanged. -/
theorem claim_C4_amended_lifetime (f : String → List (String × String) → CallOutcome)
    (pc : PendingCall) (tools : List ToolDescriptor) (replyText query : String) :
    ((userInputsOf query).length = pc.missingParams.length →
      (process_query f (some pc) tools replyText query).pending = none)
    ∧ ((userInputsOf query).length ≠ pc.missingParams.length →
      (process_query f (some pc) tools replyText query).pending = some pc) := by
  constructor
  · intro h
    cases hc : f pc.toolName
        (mergeParams pc.collectedParams (pc.missingParams.zip (userInputsOf query))) with
    | success c => simp [process_query, h, hc]
    | failure e => simp [process_query, h, hc]
  · intro h
    simp [process_query, h]

/-- Witness for Claim C4 (amended): a matching-count resumption clears the
pending call; a mismatched one preserves it. -/
theorem claim_C4_amended_witness :
    (process_query stubCall (some pcNameAge) [] "" "x, y").pending = none
    ∧ (process_query stubCall (some pcNameAge) [] "" "justone").pending = some pcNameAge :=
  ⟨(claim_C4_amended_lifetime stubCall pcNameAge [] "" "x, y").1 (by decide),
   (claim_C4_amended_lifetime stubCall pcNameAge [] "" "justone").2 (by decide)⟩

/-- Claim C5: when the matched tool is the knowledge-base query tool, dispatch
skips parameter inference, binds the entire raw user query to the single
"query" parameter, and invokes the tool immediately with that one-entry
parameter mapping. -/
theorem claim_C5_query_tool_bypass (f : String → List (String × String) → CallOutcome)
    (tools : List ToolDescriptor) (replyText query : String) (t : ToolDescriptor)
    (hfind : tools.find? (fun u => containsCI replyText u.name) = some t)
    (hname : t.name = "query_tool") :
    (process_query f none tools replyText query).calls = [("query_tool", [("query", query)])]
    ∧ (process_query f none tools replyText query).pending = none := by
  have hm : process_query f none tools replyText query = dispatchTool f t query := by
    have h := matchTools_eq_find f tools replyText query
    rw [hfind] at h
    exact h
  rw [hm]
  unfold dispatchTool
  rw [if_pos hname, hname]
  cases hc : f "query_tool" [("query", query)] <;> simp [hc]

/-- Witness for Claim C5: the reply "Use query_tool to search" with query
"what is Lomaa" invokes query_tool with the whole query bound to "query". -/
theorem claim_C5_witness :
    (process_query stubCall none [queryToolDesc, loginToolDesc] "Use query_tool to search"
        "what is Lomaa").calls
      = [("query_tool", [("query", "what is Lomaa")])]
    ∧ (process_query stubCall none [queryToolDesc, loginToolDesc] "Use query_tool to search"
        "what is Lomaa").pending = none :=
  claim_C5_query_tool_bypass stubCall [queryToolDesc, loginToolDesc] "Use query_tool to search"
    "what is Lomaa" queryToolDesc (by decide) (by decide)

/-- Claim C6: for a matched non-query_tool tool, a non-empty missing-parameter
list makes dispatch store the pending call and return the prompt listing
exactly the missing parameter names in order without invoking the tool; an
empty one makes dispatch invoke the tool immediately with the inferred
parameters and create no pending call. -/
theorem claim_C6_pending_gate (f : String → List (String × String) → CallOutcome)
    (t : ToolDescriptor) (query : String) (hname : t.name ≠ "query_tool") :
    (missingOf t.properties query ≠ [] →
      dispatchTool f t query
        = ⟨some ⟨t.name, inferParams t.properties query, missingOf t.properties query⟩, [],
            "To use " ++ t.name
              ++ ", please provide information in this specific format: "
              ++ joinComma (missingOf t.properties query)⟩)
    ∧ (missingOf t.properties query = [] →
      (dispatchTool f t query).calls = [(t.name, inferParams t.properties query)]
      ∧ (dispatchTool f t query).pending = none) := by
  constructor
  · intro h
    unfold dispatchTool
    rw [if_neg hname, if_neg (by simpa [List.isEmpty_iff] using h)]
  · intro h
    unfold dispatchTool
    rw [if_neg hname, if_pos (by simp [List.isEmpty_iff, h])]
    cases hc : f t.name (inferParams t.properties query) <;> simp [hc]

/-- Witness for Claim C6: the login tool with query "hello" defers with both
parameters missing; with a query containing both parameter names it is invoked
immediately. -/
theorem claim_C6_witness :
    dispatchTool stubCall loginToolDesc "hello"
        = ⟨some ⟨"login_tool", [], ["name", "age"]⟩, [],
            "To use login_tool, please provide information in this specific format: name, age"⟩
    ∧ ((dispatchTool stubCall loginToolDesc "my name and age are Bob 30").calls
        = [("login_tool", inferParams loginToolDesc.properties "my name and age are Bob 30")]
      ∧ (dispatchTool stubCall loginToolDesc "my name and age are Bob 30").pending = none) :=
  ⟨((claim_C6_pending_gate stubCall loginToolDesc "hello" (by decide)).1
      (by decide)).trans (by decide),
   (claim_C6_pending_gate stubCall loginToolDesc "my name and age are Bob 30"
      (by decide)).2 (by decide)⟩

/-- Claim C7: resuming a stored pending call with an input whose comma-split,
trimmed segment count equals the number of missing parameters zips the missing
parameter names to the segments in order, merges them into the previously
collected parameters, clears the pending call, and invokes the tool with the
full mapping. -/
theorem claim_C7_resume_merge (f : String → List (String × String) → CallOutcome)
    (pc : PendingCall) (tools : List ToolDescriptor) (replyText query : String)
    (hlen : (userInputsOf query).length = pc.missingParams.length)
    (hnd : pc.missingParams.Nodup) :
    (process_query f (some pc) tools replyText query).pending = none
    ∧ (process_query f (some pc) tools replyText query).calls
        = [(pc.toolName,
            mergeParams pc.collectedParams (pc.missingParams.zip (userInputsOf query)))]
    ∧ (∀ kv ∈ pc.missingParams.zip (userInputsOf query),
        dictLookup
            (mergeParams pc.collectedParams (pc.missingParams.zip (userInputsOf query)))
            kv.1
          = some kv.2)
    ∧ (∀ k, k ∉ pc.missingParams →
        dictLookup
            (mergeParams pc.collectedParams (pc.missingParams.zip (userInputsOf query)))
            k
          = dictLookup pc.collectedParams k) := by
  have hkeys : (pc.missingParams.zip (userInputsOf query)).map Prod.fst = pc.missingParams :=
    List.map_fst_zip _ _ (le_of_eq hlen.symm)
  refine ⟨?_, ?_, ?_, ?_⟩
  · cases hc : f pc.toolName
        (mergeParams pc.collectedParams (pc.missingParams.zip (userInputsOf query))) with
    | success c => simp [process_query, hlen, hc]
    | failure e => simp [process_query, hlen, hc]
  · cases hc : f pc.toolName
        (mergeParams pc.collectedParams (pc.missingParams.zip (userInputsOf query))) with
    | success c => simp [process_query, hlen, hc]
    | failure e => simp [process_query, hlen, hc]
  · intro kv hkv
    exact dictLookup_mergeParams_of_mem _ _ _ _ (hkeys.symm ▸ hnd) hkv
  · intro k hk
    exact dictLookup_mergeParams_of_not_mem _ _ _ (hkeys.symm ▸ hk)

/-- Witness for Claim C7: resuming the pending login call with "Alice, 30"
clears the pending call and binds name to "Alice" and age to "30". -/
theorem claim_C7_witness :
    (process_query stubCall (some pcNameAge) [] "" "Alice, 30").pending = none
    ∧ dictLookup (mergeParams pcNameAge.collectedParams
          (pcNameAge.missingParams.zip (userInputsOf "Alice, 30"))) "name" = some "Alice"
    ∧ dictLookup (mergeParams pcNameAge.collectedParams
          (pcNameAge.missingParams.zip (userInputsOf "Alice, 30"))) "age" = some "30" := by
  have h := claim_C7_resume_merge stubCall pcNameAge [] "" "Alice, 30" (by decide) (by decide)
  exact ⟨h.1, h.2.2.1 ("name", "Alice") (by decide), h.2.2.1 ("age", "30") (by decide)⟩

/-- Claim C8: invoking the server's login tool with at least one required
parameter absent returns the structured missing_arguments response whose
message names exactly the absent parameters, and the backend API call
constructor is not produced. -/
theorem claim_C8_login_missing_arguments (name : Option String) (age : Option Int)
    (h : name = none ∨ age = none) :
    login_tool name age
      = .errorResponse
          ⟨"missing_arguments",
            "To help you with the login process, please provide your "
              ++ joinComma ((if name.isNone then ["name"] else [])
                  ++ (if age.isNone then ["age"] else [])) ++ "."⟩ := by
  rcases h with h | h
  · subst h
    simp [login_tool]
  · subst h
    simp [login_tool]

/-- Witness for Claim C8: calling login with only the age supplied returns the
missing_arguments response naming "name". -/
theorem claim_C8_witness :
    login_tool none (some 25)
      = .errorResponse
          ⟨"missing_arguments",
            "To help you with the login process, please provide your name."⟩ :=
  (claim_C8_login_missing_arguments none (some 25) (Or.inl rfl)).trans (by decide)

/-- Claim C9: a server-script path ending neither in ".py" nor ".js" raises a
ValueError before any process is launched; a path ending in ".py" launches
with command "python", and one ending in ".js" with command "node". -/
theorem claim_C9_script_type (path : String) :
    (strEndsWith path ".py" = false → strEndsWith path ".js" = false →
      connect_to_server path = .valueError "Server script must be a .py or .js file")
    ∧ (strEndsWith path ".py" = true → connect_to_server path = .launch "python")
    ∧ (strEndsWith path ".js" = true → connect_to_server path = .launch "node") := by
  refine ⟨?_, ?_, ?_⟩
  · intro h1 h2
    simp [connect_to_server, h1, h2]
  · intro h1
    simp [connect_to_server, h1]
  · intro h2
    have h1 : strEndsWith path ".py" = false := by
      cases hb : strEndsWith path ".py" with
      | false => rfl
      | true => exact absurd ⟨hb, h2⟩ (not_ends_py_and_js path)
    simp [connect_to_server, h1, h2]

/-- Witness for Claim C9: "server.txt" raises, "server.py" launches python,
"server.js" launches node. -/
theorem claim_C9_witness :
    connect_to_server "server.txt" = .valueError "Server script must be a .py or .js file"
    ∧ connect_to_server "server.py" = .launch "python"
    ∧ connect_to_server "server.js" = .launch "node" :=
  ⟨(claim_C9_script_type "server.txt").1 (by decide) (by decide),
   (claim_C9_script_type "server.py").2.1 (by decide),
   (claim_C9_script_type "server.js").2.2 (by decide)⟩

/-- Claim C10: comma-splitting during resumption imposes no non-emptiness
check: segments that are empty after trimming still count toward the supplied
value count and are bound to their missing parameters as the empty string, so
resuming two missing parameters with input "," invokes the tool with both
bound to "". -/
theorem claim_C10_empty_segments (f : String → List (String × String) → CallOutcome)
    (pc : PendingCall) (tools : List ToolDescriptor) (replyText : String)
    (a b : String) (hmp : pc.missingParams = [a, b]) (hab : a ≠ b) :
    (process_query f (some pc) tools replyText ",").pending = none
    ∧ (process_query f (some pc) tools replyText ",").calls
        = [(pc.toolName, mergeParams pc.collectedParams [(a, ""), (b, "")])]
    ∧ dictLookup (mergeParams pc.collectedParams [(a, ""), (b, "")]) a = some ""
    ∧ dictLookup (mergeParams pc.collectedParams [(a, ""), (b, "")]) b = some "" := by
  have hinput : userInputsOf "," = ["", ""] := by decide
  have hlen : (userInputsOf ",").length = pc.missingParams.length := by
    rw [hinput, hmp]
    rfl
  have hzip : pc.missingParams.zip (userInputsOf ",") = [(a, ""), (b, "")] := by
    rw [hinput, hmp]
    rfl
  refine ⟨?_, ?_, ?_, ?_⟩
  · cases hc : f pc.toolName (mergeParams pc.collectedParams [(a, ""), (b, "")]) with
    | success c => simp [process_query, hlen, hzip, hc]
    | failure e => simp [process_query, hlen, hzip, hc]
  · cases hc : f pc.toolName (mergeParams pc.collectedParams [(a, ""), (b, "")]) with
    | success c => simp [process_query, hlen, hzip, hc]
    | failure e => simp [process_query, hlen, hzip, hc]
  · rw [mergeParams_cons, mergeParams_cons, mergeParams_nil,
      dictLookup_dictInsert_ne _ _ hab]
    exact dictLookup_dictInsert_self _ _ _
  · rw [mergeParams_cons, mergeParams_cons, mergeParams_nil]
    exact dictLookup_dictInsert_self _ _ _

/-- Witness for Claim C10: resuming the pending login call with "," invokes
with name and age both bound to the empty string. -/
theorem claim_C10_witness :
    (process_query stubCall (some pcNameAge) [] "" ",").pending = none
    ∧ dictLookup (mergeParams pcNameAge.collectedParams [("name", ""), ("age", "")]) "name"
        = some ""
    ∧ dictLookup (mergeParams pcNameAge.collectedParams [("name", ""), ("age", "")]) "age"
        = some "" := by
  have h := claim_C10_empty_segments stubCall pcNameAge [] "" "name" "age"
    (by decide) (by decide)
  exact ⟨h.1, h.2.2.1, h.2.2.2⟩

end MCPSpec
